import Mathlib

/-!
Shallow embedding of the resume PDF generation module
(services/worker/app/resume/pdf_gen.py): the bullet and header detection
heuristics, the plain-text block parser, the constrained-HTML block
parser, and the flowable construction pipeline, together with proofs of
the behaviour demanded by the specification.

Strings are modelled as lists of characters.  Python string helpers
(strip, lstrip, isupper, title, lower, replace, split) are modelled
character by character; the case predicates are modelled on ASCII data,
which covers every character class the module branches on.  Regular
expression scans are modelled as explicit left-to-right scanners with
the same leftmost-match semantics.  Functions whose Python original can
raise return Option, with none modelling the raised exception.
-/

def cl (s : String) : List Char := s.toList

/-- Characters treated as whitespace by Python str.strip and the regex
class backslash-s (ASCII plus the common Unicode whitespace points). -/
def pyWs (c : Char) : Bool :=
  c = ' ' || c = '\t' || c = '\n' || c = '\x0b' || c = '\x0c' || c = '\r' ||
  c = '\x1c' || c = '\x1d' || c = '\x1e' || c = '\x1f' || c = '\x85' ||
  c = ' ' || c = ' ' || (' ' ≤ c && c ≤ ' ') ||
  c = ' ' || c = ' ' || c = ' ' || c = ' ' || c = '　'

/-- Python str.lstrip. -/
def pyStripL (l : List Char) : List Char := l.dropWhile pyWs

/-- Drop trailing whitespace (the right half of Python str.strip). -/
def pyStripR (l : List Char) : List Char := (l.reverse.dropWhile pyWs).reverse

/-- Python str.strip. -/
def pyStrip (l : List Char) : List Char := pyStripR (pyStripL l)

/-- ASCII lower-casing, modelling str.lower and re.IGNORECASE matching. -/
def toLowerA (c : Char) : Char := c.toLower

/-- A cased character (ASCII model of the Unicode cased property). -/
def isCasedA (c : Char) : Bool := c.isUpper || c.isLower

/-- Python str.isupper: at least one cased character and every cased
character upper-case. -/
def pyIsUpper (l : List Char) : Bool :=
  l.any isCasedA && l.all (fun c => !isCasedA c || c.isUpper)

/-- Worker for pyTitle; the flag records whether the previous character
was cased. -/
def pyTitleGo : Bool → List Char → List Char
  | _, [] => []
  | prevCased, c :: rest =>
    if isCasedA c then
      (if prevCased then toLowerA c else c.toUpper) :: pyTitleGo true rest
    else c :: pyTitleGo false rest

/-- Python str.title: first cased character of each word upper-cased,
the rest of the word lower-cased. -/
def pyTitle (l : List Char) : List Char := pyTitleGo false l

/-- _UNICODE_DASHES from pdf_gen.py: hyphen-minus, the Unicode hyphen
and dash code points, the minus sign and the byte-order mark. -/
def uDashes : List Char :=
  ['-', '‐', '‑', '‒', '–', '—', '―',
   '−', '﻿']

/-- _UNICODE_BULLETS from pdf_gen.py. -/
def uBullets : List Char := ['•', '‣', '∙', '⁃', '·']

/-- _BULLET_PREFIXES from pdf_gen.py: hyphen, bullet, en dash, em dash,
asterisk. -/
def bulletPfxChars : List Char := ['-', '•', '–', '—', '*']

/-- The character-wise substitutions performed by _normalize_bullet_line:
non-breaking space to space, every dash and bullet variant to hyphen. -/
def normMap (c : Char) : Char :=
  if c = ' ' then ' '
  else if c ∈ uDashes ∨ c ∈ uBullets then '-'
  else c

/-- _normalize_bullet_line: strip, replace non-breaking spaces and the
dash and bullet variants, strip again. -/
def normalizeBulletLine (l : List Char) : List Char :=
  pyStrip ((pyStrip l).map normMap)

/-- _is_bullet_line: the normalized line is non-empty and starts with a
character from _BULLET_PREFIXES. -/
def isBulletLine (l : List Char) : Bool :=
  match normalizeBulletLine l with
  | [] => false
  | c :: _ => decide (c ∈ bulletPfxChars)

/-- _strip_bullet_prefix from pdf_gen.py: normalize, then remove one
leading marker character and the whitespace after it. -/
def stripBulletPfx (l : List Char) : List Char :=
  match normalizeBulletLine l with
  | [] => []
  | c :: rest => if c ∈ bulletPfxChars then pyStripL rest else c :: rest

/-- Anchored match of the regex carat-star-star-dot-plus-star-star-dollar
used by _is_section_header: the whole (stripped) line is star star,
at least one non-newline character, star star. -/
def boldWrapped (s : List Char) : Bool :=
  decide (5 ≤ s.length) && decide (s.take 2 = ['*', '*']) &&
  decide (s.drop (s.length - 2) = ['*', '*']) &&
  ((s.drop 2).take (s.length - 4)).all (fun c => c ≠ '\n')

/-- _is_section_header: bold-wrapped line, or a short all-caps line. -/
def isSectionHeader (l : List Char) : Bool :=
  let s := pyStrip l
  if s = [] then false
  else if boldWrapped s then true
  else if decide (s.length < 50) && pyIsUpper s && decide (2 < s.length) then true
  else false

/-- Prefix test, modelling str.startswith and anchored literal regexes. -/
def listStartsWith (pat l : List Char) : Bool := decide (l.take pat.length = pat)

/-- First index at which pat occurs as a contiguous sublist (Python
str.find / the scanning phase of re.search for a literal). -/
def findSubIdxAux (pat : List Char) : List Char → Nat → Option Nat
  | [], _ => none
  | c :: rest, k =>
    if listStartsWith pat (c :: rest) then some k else findSubIdxAux pat rest (k + 1)

/-- Python substring containment (the in operator on str). -/
def containsSub (pat l : List Char) : Bool := (findSubIdxAux pat l 0).isSome

/-- _looks_like_job_or_project_title: not empty, not a bullet line, and
either bolded or a long pipe-separated line. -/
def looksLikeJobOrProjectTitle (l : List Char) : Bool :=
  let s := pyStrip l
  if s = [] || isBulletLine l then false
  else if listStartsWith ['*', '*'] s || containsSub ['*', '*'] s then true
  else if containsSub (cl " | ") s && decide (20 < s.length) then true
  else false

/-- Fuel-driven worker for splitOnSub; the fuel is always at least the
length of the remaining list plus one, so it never runs out. -/
def splitOnSubAux (sep : List Char) : Nat → List Char → List (List Char)
  | 0, l => [l]
  | fuel + 1, l =>
    match findSubIdxAux sep l 0 with
    | none => [l]
    | some i => l.take i :: splitOnSubAux sep fuel (l.drop (i + sep.length))

/-- Python str.split(sep): split on each non-overlapping occurrence of
sep, keeping empty pieces. -/
def splitOnSub (sep l : List Char) : List (List Char) :=
  splitOnSubAux sep (l.length + 1) l

/-- Python str.replace(pat, rep): replace every non-overlapping
occurrence, scanning left to right. -/
def replaceAll (l pat rep : List Char) : List Char :=
  List.intercalate rep (splitOnSub pat l)

/-- True when the list starts with two asterisks. -/
def starStarAt (l : List Char) : Bool := decide (l.take 2 = ['*', '*'])

/-- First index of a double asterisk. -/
def findDoubleStar : List Char → Nat → Option Nat
  | [], _ => none
  | c :: rest, k =>
    if starStarAt (c :: rest) then some k else findDoubleStar rest (k + 1)

/-- Fuel-driven worker for boldSub, modelling the regex substitution of
star-star lazy-dot-plus star-star by b tags: at a double star, the lazy
group ends at the first double star at distance at least three. -/
def boldSubAux : Nat → List Char → List Char
  | 0, l => l
  | fuel + 1, l =>
    match l with
    | [] => []
    | c :: rest =>
      if starStarAt l then
        match findDoubleStar (l.drop 3) 0 with
        | some j =>
          cl "<b>" ++ (l.drop 2).take (j + 1) ++ cl "</b>" ++
            boldSubAux fuel (l.drop (3 + j + 2))
        | none => c :: boldSubAux fuel rest
      else c :: boldSubAux fuel rest

/-- The star-star to bold-tag substitution used by _bold_to_xml and
_html_inline_to_reportlab. -/
def boldSub (l : List Char) : List Char := boldSubAux (l.length + 1) l

/-- ASCII decimal digit (the regex class backslash-d on this data). -/
def asciiDigit (c : Char) : Bool := '0' ≤ c && c ≤ '9'

/-- The regex class 0-9a-f under IGNORECASE. -/
def hexDigitCi (c : Char) : Bool :=
  asciiDigit c || ('a' ≤ c && c ≤ 'f') || ('A' ≤ c && c ≤ 'F')

/-- Case-insensitive prefix test (pat is given lower-case), modelling
re.IGNORECASE literal matching. -/
def ciStarts (pat l : List Char) : Bool :=
  decide ((l.take pat.length).map toLowerA = pat)

/-- The numeric-entity alternatives of the lookahead, applied to the
text after the hash sign: a hex body x-hexdigits-semicolon, or a
decimal body digits-semicolon. -/
def numEntityAfterHash (r : List Char) : Bool :=
  if decide (r.take 1 = ['x']) || decide (r.take 1 = ['X']) then
    decide ((r.drop 1).takeWhile hexDigitCi ≠ []) &&
      decide ((((r.drop 1).drop ((r.drop 1).takeWhile hexDigitCi).length).take 1) = [';'])
  else
    decide (r.takeWhile asciiDigit ≠ []) &&
      decide (((r.drop (r.takeWhile asciiDigit).length).take 1) = [';'])

/-- The negative lookahead of _escape_amp_for_reportlab: the text after
an ampersand begins with a recognized entity body. -/
def entityAfterAmp (l : List Char) : Bool :=
  ciStarts (cl "amp;") l || ciStarts (cl "lt;") l || ciStarts (cl "gt;") l ||
  ciStarts (cl "quot;") l ||
  (decide (l.take 1 = ['#']) && numEntityAfterHash (l.drop 1))

/-- _escape_amp_for_reportlab: rewrite each ampersand that does not
start a recognized entity to amp-entity form; scanning resumes right
after each (non-)match, as re.sub does. -/
def escapeAmpForReportlab : List Char → List Char
  | [] => []
  | c :: rest =>
    if c = '&' && !entityAfterAmp rest then
      '&' :: 'a' :: 'm' :: 'p' :: ';' :: escapeAmpForReportlab rest
    else c :: escapeAmpForReportlab rest

/-- _bold_to_xml: bold conversion then ampersand escaping. -/
def boldToXml (l : List Char) : List Char := escapeAmpForReportlab (boldSub l)

/-- A parsed block of the plain-text pipeline: the tag string used by
pdf_gen.py (title, contact, section, body, bullet, job_title) paired
with the content. -/
abbrev Blk := String × List Char

/-- The per-paragraph line split of _parse_blocks: split on newline,
strip each line, keep the non-empty ones. -/
def splitLines (raw : List Char) : List (List Char) :=
  ((splitOnSub (cl "\n") raw).map pyStrip).filter (fun ln => ln ≠ [])

def joinWith (sep : List Char) (parts : List (List Char)) : List Char :=
  List.intercalate sep parts

/-- The flush step of the bullet scan in _parse_blocks: emit the pending
job title (joined with spaces) and the pending bullet lines. -/
def flushGroup (nb bls : List (List Char)) : List Blk :=
  if nb ≠ [] ∨ bls ≠ [] then
    (if nb ≠ [] then [("job_title", joinWith (cl " ") nb)] else []) ++
      bls.map (fun bl => ("bullet", bl))
  else []

/-- The inner while loop of the bullet branch of _parse_blocks. -/
def bulletScan : List (List Char) → List (List Char) → List (List Char) → List Blk
  | [], nb, bls => flushGroup nb bls
  | ln :: rest, nb, bls =>
    if pyStrip ln = [] then bulletScan rest nb bls
    else if looksLikeJobOrProjectTitle ln then
      flushGroup nb bls ++ bulletScan rest [pyStrip ln] []
    else if isBulletLine ln then bulletScan rest nb (bls ++ [stripBulletPfx ln])
    else bulletScan rest nb (bls ++ [pyStrip ln])

/-- The non-first-paragraph branch of _parse_blocks: section header
alone, section header plus body lines, bullet scan, or one joined body
paragraph. -/
def generalProcess (lines : List (List Char)) : List Blk :=
  if lines.length = 1 ∧ isSectionHeader (lines.headD []) = true then
    [("section", lines.headD [])]
  else if 2 ≤ lines.length ∧ isSectionHeader (lines.headD []) = true then
    ("section", lines.headD []) ::
      (lines.tail.filter (fun r => pyStrip r ≠ [])).map (fun r => ("body", r))
  else
    match List.findIdx? isBulletLine lines with
    | some i => bulletScan (lines.drop i) (lines.take i) []
    | none =>
      let content := joinWith (cl " ") lines
      if content ≠ [] then [("body", content)] else []

/-- One paragraph of _parse_blocks; isFirst selects the special-cased
first-paragraph handling (name plus contact line). -/
def processRaw (lines : List (List Char)) (isFirst : Bool) : List Blk :=
  if isFirst then
    if lines.length = 1 then
      if isSectionHeader (lines.headD []) then [("section", lines.headD [])]
      else [("title", lines.headD [])]
    else if 2 ≤ lines.length ∧ ¬(isSectionHeader (lines.headD []) = true) then
      [("title", lines.headD []), ("contact", joinWith (cl " | ") lines.tail)]
    else generalProcess lines
  else generalProcess lines

/-- The paragraph loop of _parse_blocks; the flag is the mutable first
variable of the Python loop. -/
def parseBlocksGo : List (List Char) → Bool → List Blk
  | [], _ => []
  | raw :: rest, first =>
    let lines := splitLines raw
    if lines = [] then parseBlocksGo rest first
    else processRaw lines first ++ parseBlocksGo rest false

/-- _parse_blocks: split the text on blank lines and classify each
paragraph into tagged blocks. -/
def parseBlocks (text : List Char) : List Blk :=
  parseBlocksGo
    (((splitOnSub (cl "\n\n") text).map pyStrip).filter (fun b => b ≠ [])) true

/-- A renderable primitive: styled paragraph (style sheet name, numeric
alignment as in _build_styles, text), horizontal rule (colour), or
vertical spacer. -/
inductive Flowable where
  | para (style : String) (alignment : Nat) (text : List Char)
  | hrule (color : String)
  | spacer (w h : Nat)
deriving DecidableEq, Repr

/-- _LIST_MARKER from pdf_gen.py: hyphen plus three spaces. -/
def listMarker : List Char := cl "-   "

/-- _block_to_flowables: map one tagged block to styled primitives; the
alignment numbers come from _build_styles (title and contact centred). -/
def blockToFlowables (b : Blk) : List Flowable :=
  let content := boldToXml b.2
  if b.1 = "title" then [.para "Title" 1 content]
  else if b.1 = "contact" then [.para "Contact" 1 content]
  else if b.1 = "section" then
    let head0 := pyStrip (replaceAll content ['*', '*'] [])
    let head := if pyIsUpper head0 then pyTitle head0 else head0
    [.para "Section" 0 (cl "<b>" ++ head ++ cl "</b>"), .hrule "#333333",
     .spacer 1 4]
  else if b.1 = "bullet" then
    [.para "BulletText" 0 (listMarker ++ stripBulletPfx content)]
  else if b.1 = "job_title" then [.para "JobTitle" 0 content, .spacer 1 4]
  else if b.1 = "body" then [.para "Body" 0 (stripBulletPfx content)]
  else []

/-- The flowable built for one block inside the bullet run of the
text_to_pdf_bytes loop: strip the marker, then bold conversion, then
prepend the list marker. -/
def txtBulletFlow (b : Blk) : Flowable :=
  .para "BulletText" 0 (listMarker ++ boldToXml (stripBulletPfx b.2))

/-- The spacer, thin grey rule, spacer emitted after a bullet run when
the next block is a job title. -/
def bulletDivider : List Flowable :=
  [.spacer 1 4, .hrule "#cccccc", .spacer 1 4]

def isBulletBlk (b : Blk) : Bool := b.1 = "bullet"

/-- The while loop of text_to_pdf_bytes over the parsed blocks.  The
flag records whether the scan is inside a bullet run (the inner while
of the Python loop): a bullet met outside a run first emits the single
leading spacer; a bullet inside a run is emitted directly; at the first
non-bullet block after a run the divider is added when that block is a
job title, and every non-bullet block goes through _block_to_flowables. -/
def textLoop : Bool → List Blk → List Flowable
  | _, [] => []
  | inRun, b :: rest =>
    if isBulletBlk b then
      if inRun then txtBulletFlow b :: textLoop true rest
      else Flowable.spacer 1 4 :: txtBulletFlow b :: textLoop true rest
    else
      (if inRun && (b.1 = "job_title") then bulletDivider else []) ++
        blockToFlowables b ++ textLoop false rest

/-- The flowable list of text_to_pdf_bytes, starting outside a run. -/
def textGo (blocks : List Blk) : List Flowable := textLoop false blocks

/-- The spacer, rule, spacer appended after a bullet run exactly when
the block following the run is a job title. -/
def dividerFor (post : List Blk) : List Flowable :=
  match post.head? with
  | some nb => if nb.1 = "job_title" then bulletDivider else []
  | none => []

/-- Modelled from the spec: the Document Renderer (spec section 4.5) is
the external layout primitive SimpleDocTemplate.build of the reportlab
library, which is not part of this repository.  Per spec sections 4.5
and 7 it consumes the ordered flowable list and always produces a byte
stream of a paginated document, a minimal valid blank document when the
list is empty.  Modelled as a fixed non-empty header, a byte counting
the flowables, and a trailer. -/
def docBuild (flowables : List Flowable) : List Nat :=
  (cl "%PDF-1.4\n").map Char.toNat ++ [flowables.length % 256] ++
    (cl "\n%%EOF").map Char.toNat

/-- text_to_pdf_bytes: parse, run the flowable loop, build the bytes. -/
def textToPdfBytes (resumeText : List Char) : List Nat :=
  docBuild (textGo (parseBlocks resumeText))

/-- First index satisfying a character test. -/
def idxOfFirst (p : Char → Bool) : List Char → Option Nat
  | [] => none
  | c :: rest => if p c then some 0 else (idxOfFirst p rest).map (· + 1)

/-- re.search for the pattern open-ul-attrs-gt (case-insensitive):
earliest position with a lower-ul open and a closing angle bracket at
distance at least three; returns (start, end) of the match.  When an
open ul has no closing bracket anywhere after it no later position can
match either, so the scan reports no match. -/
def searchUlOpenAux : List Char → Nat → Option (Nat × Nat)
  | [], _ => none
  | c :: rest, k =>
    if ciStarts (cl "<ul") (c :: rest) then
      match idxOfFirst (fun d => d = '>') ((c :: rest).drop 3) with
      | some g => some (k, k + 3 + g + 1)
      | none => none
    else searchUlOpenAux rest (k + 1)

def searchUlOpen (l : List Char) : Option (Nat × Nat) := searchUlOpenAux l 0

/-- re.search for a case-insensitive literal: first match index. -/
def findCIAux (pat : List Char) : List Char → Nat → Option Nat
  | [], _ => none
  | c :: rest, k =>
    if ciStarts pat (c :: rest) then some k else findCIAux pat rest (k + 1)

def findCI (pat l : List Char) : Option Nat := findCIAux pat l 0

/-- The inner depth-tracking while loop of _find_ul_ranges.  Returns
some (appended, j) with j the final scan position and appended true when
a completed range ends at j; returns none for the AttributeError the
Python code raises when, at positive depth, neither another ul open tag
nor a close tag occurs after j (next_ul.end() on None). -/
def ulInnerLoop (s : List Char) : Nat → Nat → Nat → Option (Bool × Nat)
  | 0, _, _ => none
  | fuel + 1, j, depth =>
    if 0 < depth ∧ j < s.length then
      let sfx := s.drop j
      let nu := searchUlOpen sfx
      let ne := findCI (cl "</ul>") sfx
      let posUl := match nu with | some st => st.1 | none => s.length + 1
      let posEnd := match ne with | some p => p | none => s.length + 1
      if posEnd < posUl then
        match ne with
        | some p =>
          if depth - 1 = 0 then some (true, j + p + 5)
          else ulInnerLoop s fuel (j + p + 5) (depth - 1)
        | none => none
      else
        match nu with
        | some st => ulInnerLoop s fuel (j + st.2) (depth + 1)
        | none => none
    else some (false, j)

/-- The outer while loop of _find_ul_ranges. -/
def ulOuterLoop (s : List Char) : Nat → Nat → Option (List (Nat × Nat))
  | 0, _ => none
  | fuel + 1, i =>
    if i < s.length then
      match searchUlOpen (s.drop i) with
      | none => some []
      | some st =>
        match ulInnerLoop s (s.length + 1) (i + st.2) 1 with
        | none => none
        | some fj =>
          match ulOuterLoop s fuel fj.2 with
          | none => none
          | some rs =>
            some ((if fj.1 then [(i + st.1, fj.2)] else []) ++ rs)
    else some []

/-- _find_ul_ranges: the (start, end) spans of the top-level ul blocks;
none models the exception raised on an unterminated ul. -/
def findUlRanges (s : List Char) : Option (List (Nat × Nat)) :=
  ulOuterLoop s (s.length + 1) 0

/-- The literal close tag for a tag name. -/
def closePat (tag : List Char) : List Char := '<' :: '/' :: tag ++ ['>']

/-- Match of the regex open-tag attrs gt, lazy group, close tag at one
position (case-insensitive, dot matches newline): attrs run to the first
closing angle bracket, the lazy inner group to the first close tag. -/
def matchTagAt (tag s : List Char) (k : Nat) :
    Option (List Char × List Char × Nat) :=
  let sfx := s.drop k
  if ciStarts ('<' :: tag) sfx then
    match idxOfFirst (fun d => d = '>') (sfx.drop (1 + tag.length)) with
    | some g =>
      let attrs := (sfx.drop (1 + tag.length)).take g
      let afterGt := sfx.drop (1 + tag.length + g + 1)
      match findCI (closePat tag) afterGt with
      | some h =>
        some (attrs, afterGt.take h,
          k + 1 + tag.length + g + 1 + h + (tag.length + 3))
      | none => none
    | none => none
  else none

/-- re.finditer over the tag pattern: leftmost matches, scanning resumes
at each match end. -/
def finditerTagAux (tag s : List Char) : Nat → Nat → List (Nat × List Char × List Char)
  | 0, _ => []
  | fuel + 1, k =>
    if k < s.length then
      match matchTagAt tag s k with
      | some ai => (k, ai.1, ai.2.1) :: finditerTagAux tag s fuel ai.2.2
      | none => finditerTagAux tag s fuel (k + 1)
    else []

def finditerTag (tag s : List Char) : List (Nat × List Char × List Char) :=
  finditerTagAux tag s (s.length + 1) 0

/-- The alternation left, center, right, justify at one position
(case-insensitive), returning the lowered word as group(1).lower(). -/
def alignWordAt (l : List Char) : Option (List Char) :=
  if ciStarts (cl "left") l then some (cl "left")
  else if ciStarts (cl "center") l then some (cl "center")
  else if ciStarts (cl "right") l then some (cl "right")
  else if ciStarts (cl "justify") l then some (cl "justify")
  else none

/-- re.search for text-align colon word inside a style attribute. -/
def searchStyleAlignAux : List Char → Option (List Char)
  | [] => none
  | c :: rest =>
    (if ciStarts (cl "text-align") (c :: rest) then
      (let r2 := ((c :: rest).drop 10).dropWhile pyWs
       match r2 with
       | ':' :: r3 => alignWordAt (r3.dropWhile pyWs)
       | _ => none)
     else none).orElse (fun _ => searchStyleAlignAux rest)

/-- re.search for data-text-align equal quote word quote. -/
def searchDataAlignAux : List Char → Option (List Char)
  | [] => none
  | c :: rest =>
    (if ciStarts (cl "data-text-align=") (c :: rest) then
      (match (c :: rest).drop 16 with
       | q :: r2 =>
         if q = '"' ∨ q = '\'' then
           match alignWordAt r2 with
           | some w =>
             (match r2.drop w.length with
              | q2 :: _ => if q2 = '"' ∨ q2 = '\'' then some w else none
              | [] => none)
           | none => none
         else none
       | [] => none)
     else none).orElse (fun _ => searchDataAlignAux rest)

/-- The alignment extraction of _parse_simple_html_to_blocks: the style
form first, the data attribute form as fallback. -/
def extractAlign (attrs : List Char) : Option (List Char) :=
  (searchStyleAlignAux attrs).orElse (fun _ => searchDataAlignAux attrs)

/-- A block extracted from the constrained HTML: paragraph or heading
with optional alignment, or a list of list-item strings. -/
inductive HtmlBlock where
  | pblk (text : List Char) (align : Option (List Char))
  | h2blk (text : List Char) (align : Option (List Char))
  | ulblk (items : List (List Char))
deriving DecidableEq, Repr

/-- re.sub of an anchored open tag with attrs, count one. -/
def stripLeadingTagOpen (tag l : List Char) : List Char :=
  if ciStarts ('<' :: tag) l then
    match idxOfFirst (fun d => d = '>') (l.drop (1 + tag.length)) with
    | some g => l.drop (1 + tag.length + g + 1)
    | none => l
  else l

/-- Scan for the close tag followed only by whitespace up to the end
(the pattern close-tag backslash-s-star dollar). -/
def findCloseWsAux (pat : List Char) : List Char → Nat → Option Nat
  | [], _ => none
  | c :: rest, k =>
    if ciStarts pat (c :: rest) && ((c :: rest).drop pat.length).all pyWs then
      some k
    else findCloseWsAux pat rest (k + 1)

/-- re.sub of close-tag backslash-s-star dollar with the empty string. -/
def stripTrailingCloseWs (pat l : List Char) : List Char :=
  match findCloseWsAux pat l 0 with
  | some k => l.take k
  | none => l

/-- Stable insertion by start offset (Python list.sort on the first
tuple component, which is stable). -/
def insertByFst (x : Nat × HtmlBlock) :
    List (Nat × HtmlBlock) → List (Nat × HtmlBlock)
  | [] => [x]
  | y :: ys => if x.1 ≤ y.1 then x :: y :: ys else y :: insertByFst x ys

def sortByFst : List (Nat × HtmlBlock) → List (Nat × HtmlBlock)
  | [] => []
  | x :: xs => insertByFst x (sortByFst xs)

/-- _parse_simple_html_to_blocks: strip wrappers, find the top-level ul
spans, extract p and h2 outside the spans and the li items inside, merge
in document order; none models the exception propagated from
_find_ul_ranges. -/
def parseSimpleHtmlToBlocks (htmlContent : List Char) : Option (List HtmlBlock) :=
  let s0 := pyStrip htmlContent
  let s1 := replaceAll s0 (cl "<div>") []
  let s2 := replaceAll s1 (cl "</div>") []
  let s3 := replaceAll s2 (cl "<body>") []
  let s := replaceAll s3 (cl "</body>") []
  match findUlRanges s with
  | none => none
  | some ulRanges =>
    let insideUl : Nat → Bool := fun pos =>
      ulRanges.any (fun r => decide (r.1 ≤ pos ∧ pos < r.2))
    let ps := (finditerTag (cl "p") s).filterMap (fun m =>
      if insideUl m.1 then none
      else
        let inner := pyStrip m.2.2
        if inner ≠ [] then some (m.1, HtmlBlock.pblk inner (extractAlign m.2.1))
        else none)
    let h2s := (finditerTag (cl "h2") s).filterMap (fun m =>
      if insideUl m.1 then none
      else
        let inner := pyStrip m.2.2
        if inner ≠ [] then some (m.1, HtmlBlock.h2blk inner (extractAlign m.2.1))
        else none)
    let uls := ulRanges.filterMap (fun r =>
      let ulInner0 := (s.drop r.1).take (r.2 - r.1)
      let ulInner1 := stripLeadingTagOpen (cl "ul") ulInner0
      let ulInner := stripTrailingCloseWs (cl "</ul>") ulInner1
      let items := (finditerTag (cl "li") ulInner).filterMap (fun m =>
        let raw0 := pyStrip m.2.2
        if raw0 = [] then none
        else
          let raw1 := stripLeadingTagOpen (cl "p") raw0
          some (pyStrip (stripTrailingCloseWs (cl "</p>") raw1)))
      if items ≠ [] then some (r.1, HtmlBlock.ulblk items) else none)
    let ordered := sortByFst (ps ++ h2s ++ uls)
    let blocks := ordered.map (fun x => x.2)
    if blocks = [] ∧ s ≠ [] then some [HtmlBlock.pblk s none] else some blocks

/-- _html_inline_to_reportlab: bold conversion, ampersand escaping, then
the strong and em substitutions exactly as written in the source (the
first sub removes the strong tags, so the later strong-to-b rewrites
find nothing; same for em). -/
def htmlInlineToReportlab (html : List Char) : List Char :=
  let s1 := boldSub html
  let s2 := escapeAmpForReportlab s1
  let s3 := replaceAll s2 (cl "<strong>") []
  let s4 := replaceAll s3 (cl "</strong>") []
  let s5 := replaceAll s4 (cl "<strong>") (cl "<b>")
  let s6 := replaceAll s5 (cl "</strong>") (cl "</b>")
  let s7 := replaceAll s6 (cl "<em>") []
  let s8 := replaceAll s7 (cl "</em>") []
  let s9 := replaceAll s8 (cl "<em>") (cl "<i>")
  replaceAll s9 (cl "</em>") (cl "</i>")

/-- _style_with_alignment: derive a one-off named style with the given
alignment; no alignment keeps the base style. -/
def styleWithAlignment (baseName : String) (baseAlign : Nat)
    (align : Option (List Char)) : String × Nat :=
  match align with
  | none => (baseName, baseAlign)
  | some a =>
    let al := a.map toLowerA
    let v := if al = cl "left" then 0
             else if al = cl "center" then 1
             else if al = cl "right" then 2
             else if al = cl "justify" then 4
             else baseAlign
    (baseName ++ "-" ++ String.mk al, v)

/-- The per-block rendering of the html_to_pdf_bytes loop; i is the
enumerate index, so the first block, when it is a paragraph, gets the
title style. -/
def htmlBlockFlows (b : HtmlBlock) (i : Nat) : List Flowable :=
  match b with
  | .pblk text align =>
    let t := htmlInlineToReportlab text
    let base := if i = 0 then (("Title" : String), 1) else (("Body" : String), 0)
    let sa := styleWithAlignment base.1 base.2 align
    [.para sa.1 sa.2 (if t = [] then [' '] else t)]
  | .h2blk text align =>
    let t := htmlInlineToReportlab text
    let sa := styleWithAlignment "Section" 0 align
    [.para sa.1 sa.2 (cl "<b>" ++ t ++ cl "</b>"), .hrule "#333333", .spacer 1 4]
  | .ulblk items =>
    items.map (fun it => .para "BulletText" 0 (listMarker ++ htmlInlineToReportlab it))

/-- The enumerate loop of html_to_pdf_bytes. -/
def htmlGo : List HtmlBlock → Nat → List Flowable
  | [], _ => []
  | b :: rest, i => htmlBlockFlows b i ++ htmlGo rest (i + 1)

/-- The flowable list built by html_to_pdf_bytes; none models the
exception propagated from the ul scanner. -/
def htmlFlowables (htmlContent : List Char) : Option (List Flowable) :=
  (parseSimpleHtmlToBlocks htmlContent).map (fun bs => htmlGo bs 0)

/-- html_to_pdf_bytes. -/
def htmlToPdfBytes (htmlContent : List Char) : Option (List Nat) :=
  (htmlFlowables htmlContent).map docBuild

/-- Whether a text begins with one of the bullet glyphs the spec names
for body text (the characters of _BULLET_PREFIXES). -/
def startsWithBulletGlyph (l : List Char) : Bool :=
  match l with
  | [] => false
  | c :: _ => decide (c ∈ bulletPfxChars)

/-- The worked plain-text example of the spec (section 8): name and
contact paragraph, then an EXPERIENCE paragraph with a job line and two
bullet lines. -/
def c1Input : List Char :=
  cl "Jane Doe\njane@x.com | 555-1234\n\nEXPERIENCE\nSenior Engineer | Acme | 2020-2023\n- Built a thing\n- Shipped another thing"

/-- The worked HTML example of the spec (section 8). -/
def c8Input : List Char :=
  cl "<p style=\"text-align:center\">Jane Doe</p><h2>Skills</h2><ul><li>Go</li><li>Rust</li></ul>"

/-! ## Generic list lemmas used throughout. -/

theorem dropWhile_idem {α : Type} (p : α → Bool) (l : List α) :
    (l.dropWhile p).dropWhile p = l.dropWhile p := by
  induction l with
  | nil => rfl
  | cons c t ih =>
    by_cases hp : p c
    · rw [List.dropWhile_cons_of_pos hp]; exact ih
    · rw [List.dropWhile_cons_of_neg hp, List.dropWhile_cons_of_neg hp]

theorem length_dropWhile_le {α : Type} (p : α → Bool) (l : List α) :
    (l.dropWhile p).length ≤ l.length := by
  induction l with
  | nil => exact Nat.le_refl _
  | cons c t ih =>
    by_cases hp : p c
    · rw [List.dropWhile_cons_of_pos hp]; exact Nat.le_succ_of_le ih
    · rw [List.dropWhile_cons_of_neg hp]

theorem dropWhile_eq_self_of_prefix {α : Type} {p : α → Bool} {x w : List α}
    (hpre : x <+: w) (hw : w.dropWhile p = w) : x.dropWhile p = x := by
  cases x with
  | nil => rfl
  | cons c x' =>
    obtain ⟨t, ht⟩ := hpre
    have hw' : w = c :: (x' ++ t) := by rw [← ht]; rfl
    subst hw'
    by_cases hp : p c
    · exfalso
      rw [List.dropWhile_cons_of_pos hp] at hw
      have hlen := congrArg List.length hw
      have hle := length_dropWhile_le p (x' ++ t)
      simp only [List.length_cons] at hlen
      omega
    · rw [List.dropWhile_cons_of_neg hp]

theorem dropWhile_append_last {α : Type} {p : α → Bool} {x : α} (hx : p x = false) :
    ∀ a : List α, (a ++ [x]).dropWhile p = a.dropWhile p ++ [x] := by
  intro a
  induction a with
  | nil =>
    simp only [List.nil_append]
    rw [List.dropWhile_cons_of_neg (by simp [hx])]
    rfl
  | cons c a' ih =>
    by_cases hp : p c
    · simp only [List.cons_append, List.dropWhile_cons_of_pos hp]; exact ih
    · simp only [List.cons_append, List.dropWhile_cons_of_neg hp]

theorem mem_of_mem_dropWhile {α : Type} {p : α → Bool} {c : α} {l : List α}
    (h : c ∈ l.dropWhile p) : c ∈ l := by
  induction l with
  | nil => simp at h
  | cons d t ih =>
    by_cases hp : p d
    · rw [List.dropWhile_cons_of_pos hp] at h
      exact List.mem_cons_of_mem d (ih h)
    · rw [List.dropWhile_cons_of_neg hp] at h
      exact h

theorem map_fixed {α : Type} {f : α → α} : ∀ {l : List α},
    (∀ c ∈ l, f c = c) → l.map f = l := by
  intro l h
  induction l with
  | nil => rfl
  | cons c t ih =>
    rw [List.map_cons, h c (List.mem_cons_self c t),
      ih (fun d hd => h d (List.mem_cons_of_mem c hd))]

theorem takeWhile_all_prepend {α : Type} {p : α → Bool} {a : List α} {x : α}
    (ha : ∀ c ∈ a, p c = true) (hx : p x = false) (z : List α) :
    (a ++ x :: z).takeWhile p = a := by
  induction a with
  | nil =>
    simp only [List.nil_append]
    rw [List.takeWhile_cons_of_neg (by simp [hx])]
  | cons c a' ih =>
    have hc := ha c (List.mem_cons_self c a')
    simp only [List.cons_append]
    rw [List.takeWhile_cons_of_pos (by simp [hc])]
    rw [ih (fun d hd => ha d (List.mem_cons_of_mem c hd))]

/-! ## Properties of the Python strip model. -/

theorem pyStripL_idem (l : List Char) : pyStripL (pyStripL l) = pyStripL l :=
  dropWhile_idem pyWs l

theorem pyStripR_idem (l : List Char) : pyStripR (pyStripR l) = pyStripR l := by
  unfold pyStripR
  rw [List.reverse_reverse, dropWhile_idem]

theorem pyStripR_prefix_self (l : List Char) : pyStripR l <+: l := by
  unfold pyStripR
  refine ⟨(l.reverse.takeWhile pyWs).reverse, ?_⟩
  rw [← List.reverse_append, List.takeWhile_append_dropWhile, List.reverse_reverse]

theorem pyStripL_pyStripR_pyStripL (l : List Char) :
    pyStripL (pyStripR (pyStripL l)) = pyStripR (pyStripL l) :=
  dropWhile_eq_self_of_prefix (pyStripR_prefix_self (pyStripL l)) (pyStripL_idem l)

theorem pyStrip_idem (l : List Char) : pyStrip (pyStrip l) = pyStrip l := by
  show pyStripR (pyStripL (pyStripR (pyStripL l))) = pyStripR (pyStripL l)
  rw [pyStripL_pyStripR_pyStripL, pyStripR_idem]

theorem pyStripR_pyStrip (l : List Char) : pyStripR (pyStrip l) = pyStrip l :=
  pyStripR_idem (pyStripL l)

theorem pyStripR_eq_self_of_suffix {x w : List Char} (hs : x <:+ w)
    (hw : pyStripR w = w) : pyStripR x = x := by
  have h2 := congrArg List.reverse hw
  unfold pyStripR at h2
  rw [List.reverse_reverse] at h2
  have hpre : x.reverse <+: w.reverse := List.reverse_prefix.mpr hs
  have h3 : x.reverse.dropWhile pyWs = x.reverse :=
    dropWhile_eq_self_of_prefix hpre h2
  unfold pyStripR
  rw [h3, List.reverse_reverse]

theorem mem_pyStrip {c : Char} {l : List Char} (h : c ∈ pyStrip l) : c ∈ l := by
  unfold pyStrip pyStripR pyStripL at h
  rw [List.mem_reverse] at h
  have h1 := mem_of_mem_dropWhile h
  rw [List.mem_reverse] at h1
  exact mem_of_mem_dropWhile h1

theorem dropWhile_suffix_self {α : Type} (p : α → Bool) (l : List α) :
    l.dropWhile p <:+ l :=
  ⟨l.takeWhile p, List.takeWhile_append_dropWhile p l⟩

theorem pyStripR_cons_nonws {c : Char} (hc : pyWs c = false) (u : List Char) :
    pyStripR (c :: u) = c :: pyStripR u := by
  unfold pyStripR
  rw [List.reverse_cons, dropWhile_append_last hc, List.reverse_append]
  rfl

theorem pyStrip_cons_nonws {c : Char} (hc : pyWs c = false) (u : List Char) :
    pyStrip (c :: u) = c :: pyStripR u := by
  unfold pyStrip pyStripL
  rw [List.dropWhile_cons_of_neg (by simp [hc])]
  exact pyStripR_cons_nonws hc u

/-! ## Properties of the bullet-line normalization. -/

theorem normMap_idem (c : Char) : normMap (normMap c) = normMap c := by
  by_cases h1 : c = '\u00a0'
  · subst h1; decide
  · by_cases h2 : c ∈ uDashes ∨ c ∈ uBullets
    · have h3 : normMap c = '-' := by unfold normMap; rw [if_neg h1, if_pos h2]
      rw [h3]; decide
    · have h3 : normMap c = c := by unfold normMap; rw [if_neg h1, if_neg h2]
      rw [h3, h3]

theorem mem_normalize_fixed {c : Char} {l : List Char}
    (h : c ∈ normalizeBulletLine l) : normMap c = c := by
  unfold normalizeBulletLine at h
  have h1 := mem_pyStrip h
  rw [List.mem_map] at h1
  obtain ⟨d, _, hd⟩ := h1
  rw [← hd, normMap_idem]

theorem map_normMap_normalize (l : List Char) :
    (normalizeBulletLine l).map normMap = normalizeBulletLine l :=
  map_fixed (fun _ hc => mem_normalize_fixed hc)

theorem normalizeBulletLine_idem (l : List Char) :
    normalizeBulletLine (normalizeBulletLine l) = normalizeBulletLine l := by
  have h1 : pyStrip (normalizeBulletLine l) = normalizeBulletLine l := by
    unfold normalizeBulletLine
    exact pyStrip_idem _
  rw [show normalizeBulletLine (normalizeBulletLine l) =
      pyStrip ((pyStrip (normalizeBulletLine l)).map normMap) from rfl,
    h1, map_normMap_normalize l]
  exact h1

theorem normalize_stripBulletPfx (l : List Char) :
    normalizeBulletLine (stripBulletPfx l) = stripBulletPfx l := by
  rcases hn : normalizeBulletLine l with _ | ⟨c, rest⟩
  · have hs : stripBulletPfx l = [] := by unfold stripBulletPfx; rw [hn]
    rw [hs]; decide
  · by_cases hc : c ∈ bulletPfxChars
    · have hs : stripBulletPfx l = pyStripL rest := by
        unfold stripBulletPfx; rw [hn]; simp [hc]
      rw [hs]
      have hyR : pyStripR (c :: rest) = c :: rest := by
        rw [← hn]
        unfold normalizeBulletLine
        exact pyStripR_pyStrip _
      have hmemfix : ∀ d ∈ (c :: rest), normMap d = d := by
        intro d hd
        exact mem_normalize_fixed (l := l) (hn ▸ hd)
      have humem : ∀ d ∈ pyStripL rest, d ∈ c :: rest := by
        intro d hd
        exact List.mem_cons_of_mem c (mem_of_mem_dropWhile hd)
      have hmap : (pyStripL rest).map normMap = pyStripL rest :=
        map_fixed (fun d hd => hmemfix d (humem d hd))
      have huL : pyStripL (pyStripL rest) = pyStripL rest := pyStripL_idem rest
      have husuf : pyStripL rest <:+ c :: rest :=
        (dropWhile_suffix_self pyWs rest).trans (List.suffix_cons c rest)
      have huR : pyStripR (pyStripL rest) = pyStripL rest :=
        pyStripR_eq_self_of_suffix husuf hyR
      have hstripU : pyStrip (pyStripL rest) = pyStripL rest := by
        show pyStripR (pyStripL (pyStripL rest)) = pyStripL rest
        rw [huL, huR]
      show pyStrip ((pyStrip (pyStripL rest)).map normMap) = pyStripL rest
      rw [hstripU, hmap, hstripU]
    · have hs : stripBulletPfx l = c :: rest := by
        unfold stripBulletPfx; rw [hn]; simp [hc]
      rw [hs, ← hn]
      exact normalizeBulletLine_idem l

theorem stripBulletPfx_no_glyph (x : List Char)
    (h : isBulletLine (stripBulletPfx x) = false) :
    startsWithBulletGlyph (stripBulletPfx x) = false := by
  have hn := normalize_stripBulletPfx x
  rcases ht : stripBulletPfx x with _ | ⟨c, rest⟩
  · rfl
  · rw [ht] at hn h
    unfold isBulletLine at h
    rw [hn] at h
    unfold startsWithBulletGlyph
    exact h

/-! ## Idempotence of the ampersand escaping. -/

theorem escAmp_cons_ne {c : Char} (hc : c ≠ '&') (l : List Char) :
    escapeAmpForReportlab (c :: l) = c :: escapeAmpForReportlab l := by
  simp [escapeAmpForReportlab, hc]

theorem escAmp_cons_amp_entity {l : List Char} (h : entityAfterAmp l = true) :
    escapeAmpForReportlab ('&' :: l) = '&' :: escapeAmpForReportlab l := by
  simp [escapeAmpForReportlab, h]

theorem escAmp_cons_amp_plain {l : List Char} (h : entityAfterAmp l = false) :
    escapeAmpForReportlab ('&' :: l) =
      '&' :: 'a' :: 'm' :: 'p' :: ';' :: escapeAmpForReportlab l := by
  simp [escapeAmpForReportlab, h]

theorem escAmp_noAmp_append {pre suf : List Char} (h : '&' ∉ pre) :
    escapeAmpForReportlab (pre ++ suf) = pre ++ escapeAmpForReportlab suf := by
  induction pre with
  | nil => rfl
  | cons c pre' ih =>
    have hc : c ≠ '&' := fun hcc => h (hcc ▸ List.mem_cons_self c pre')
    have hmem : '&' ∉ pre' := fun hm => h (List.mem_cons_of_mem c hm)
    show escapeAmpForReportlab (c :: (pre' ++ suf)) = _
    rw [escAmp_cons_ne hc, ih hmem]
    rfl

theorem ciStarts_extend {pat r0 : List Char} (hlow : r0.map toLowerA = pat) :
    ∀ z, ciStarts pat (r0 ++ z) = true := by
  intro z
  have hlen : r0.length = pat.length := by rw [← hlow]; simp
  unfold ciStarts
  rw [List.take_left' hlen, hlow]
  simp

theorem ciStarts_split {pat rest : List Char} (h : ciStarts pat rest = true) :
    ∃ r0 suf, rest = r0 ++ suf ∧ r0.map toLowerA = pat := by
  unfold ciStarts at h
  rw [decide_eq_true_eq] at h
  exact ⟨rest.take pat.length, rest.drop pat.length,
    (List.take_append_drop _ _).symm, h⟩

theorem noAmp_of_map_toLowerA {r0 pat : List Char} (hlow : r0.map toLowerA = pat)
    (hpat : '&' ∉ pat) : '&' ∉ r0 := by
  intro hm
  apply hpat
  rw [← hlow]
  have h1 : toLowerA '&' = '&' := by decide
  rw [← h1]
  exact List.mem_map_of_mem toLowerA hm

theorem digit_take_not_x {d : Char} (hd : asciiDigit d = true) (w : List Char) :
    (decide ((d :: w).take 1 = ['x']) || decide ((d :: w).take 1 = ['X'])) = false := by
  have h1 : d ≠ 'x' := by intro h; rw [h] at hd; exact absurd hd (by decide)
  have h2 : d ≠ 'X' := by intro h; rw [h] at hd; exact absurd hd (by decide)
  simp [List.take, h1, h2]

theorem takeWhile_stops {p : Char → Bool} {ds : List Char}
    (hall : ∀ c ∈ ds, p c = true) (hsemi : p ';' = false) (z : List Char) :
    (ds ++ ';' :: z).takeWhile p = ds ∧ (ds ++ ';' :: z).drop ds.length = ';' :: z :=
  ⟨takeWhile_all_prepend hall hsemi z, List.drop_left ds (';' :: z)⟩

theorem decimal_body_extend {ds : List Char} (hds : ds ≠ [])
    (hall : ∀ c ∈ ds, asciiDigit c = true) (z : List Char) :
    numEntityAfterHash (ds ++ ';' :: z) = true := by
  rcases ds with _ | ⟨d, ds'⟩
  · exact absurd rfl hds
  have hd := hall d (List.mem_cons_self d ds')
  have hstops := takeWhile_stops (p := asciiDigit) hall (by decide) z
  unfold numEntityAfterHash
  rw [show (d :: ds') ++ ';' :: z = d :: (ds' ++ ';' :: z) from rfl] at hstops ⊢
  rw [if_neg ?hcond]
  case hcond =>
    have := digit_take_not_x hd (ds' ++ ';' :: z)
    simp only [this]
    exact fun hx => by simp at hx
  rw [hstops.1, hstops.2]
  simp [hds]

theorem hex_body_extend {x0 : Char} (hx : x0 = 'x' ∨ x0 = 'X') {hs : List Char}
    (hhs : hs ≠ []) (hall : ∀ c ∈ hs, hexDigitCi c = true) (z : List Char) :
    numEntityAfterHash (x0 :: hs ++ ';' :: z) = true := by
  have hstops := takeWhile_stops (p := hexDigitCi) hall (by decide) z
  unfold numEntityAfterHash
  rw [if_pos ?hcond]
  case hcond =>
    rcases hx with h | h <;> subst h <;> simp [List.take]
  have hdrop : (x0 :: hs ++ ';' :: z).drop 1 = hs ++ ';' :: z := rfl
  rw [hdrop, hstops.1, hstops.2]
  simp [hhs]

theorem entity_extend {rest : List Char} (h : entityAfterAmp rest = true) :
    ∃ pre suf, rest = pre ++ suf ∧ '&' ∉ pre ∧
      ∀ z, entityAfterAmp (pre ++ z) = true := by
  unfold entityAfterAmp at h
  rw [Bool.or_eq_true, Bool.or_eq_true, Bool.or_eq_true, Bool.or_eq_true] at h
  rcases h with (((h1 | h2) | h3) | h4) | h5
  · obtain ⟨r0, suf, hsplit, hlow⟩ := ciStarts_split h1
    refine ⟨r0, suf, hsplit, noAmp_of_map_toLowerA hlow (by decide), fun z => ?_⟩
    unfold entityAfterAmp
    rw [ciStarts_extend hlow z]
    rfl
  · obtain ⟨r0, suf, hsplit, hlow⟩ := ciStarts_split h2
    refine ⟨r0, suf, hsplit, noAmp_of_map_toLowerA hlow (by decide), fun z => ?_⟩
    unfold entityAfterAmp
    rw [ciStarts_extend hlow z]
    simp
  · obtain ⟨r0, suf, hsplit, hlow⟩ := ciStarts_split h3
    refine ⟨r0, suf, hsplit, noAmp_of_map_toLowerA hlow (by decide), fun z => ?_⟩
    unfold entityAfterAmp
    rw [ciStarts_extend hlow z]
    simp
  · obtain ⟨r0, suf, hsplit, hlow⟩ := ciStarts_split h4
    refine ⟨r0, suf, hsplit, noAmp_of_map_toLowerA hlow (by decide), fun z => ?_⟩
    unfold entityAfterAmp
    rw [ciStarts_extend hlow z]
    simp
  · rw [Bool.and_eq_true, decide_eq_true_eq] at h5
    obtain ⟨hhash, hnum⟩ := h5
    rcases rest with _ | ⟨c0, r⟩
    · simp [List.take] at hhash
    have hc0 : c0 = '#' := by
      simp [List.take] at hhash
      exact hhash
    subst hc0
    have hr : ('#' :: r).drop 1 = r := rfl
    rw [hr] at hnum
    unfold numEntityAfterHash at hnum
    by_cases hx : (decide (r.take 1 = ['x']) || decide (r.take 1 = ['X'])) = true
    · rw [if_pos hx] at hnum
      rw [Bool.and_eq_true, decide_eq_true_eq, decide_eq_true_eq] at hnum
      obtain ⟨hhs, hsemi⟩ := hnum
      rcases r with _ | ⟨x0, r2⟩
      · simp [List.take] at hx
      have hx0 : x0 = 'x' ∨ x0 = 'X' := by
        rw [Bool.or_eq_true, decide_eq_true_eq, decide_eq_true_eq] at hx
        rcases hx with h | h
        · left; simpa [List.take] using h
        · right; simpa [List.take] using h
      have hr2 : (x0 :: r2).drop 1 = r2 := rfl
      rw [hr2] at hhs hsemi
      have hdec : r2.takeWhile hexDigitCi ++ r2.dropWhile hexDigitCi = r2 :=
        List.takeWhile_append_dropWhile hexDigitCi r2
      have hdw : r2.drop (r2.takeWhile hexDigitCi).length = r2.dropWhile hexDigitCi := by
        nth_rewrite 2 [← hdec]
        exact List.drop_left _ _
      rw [hdw] at hsemi
      rcases hdwc : r2.dropWhile hexDigitCi with _ | ⟨s0, w⟩
      · rw [hdwc] at hsemi; simp [List.take] at hsemi
      rw [hdwc] at hsemi
      have hs0 : s0 = ';' := by simpa [List.take] using hsemi
      subst hs0
      have hr2eq : r2 = r2.takeWhile hexDigitCi ++ ';' :: w := by
        conv_lhs => rw [← hdec]
        rw [hdwc]
      have hallhex : ∀ c ∈ r2.takeWhile hexDigitCi, hexDigitCi c = true :=
        fun c hc => List.mem_takeWhile_imp hc
      refine ⟨'#' :: x0 :: r2.takeWhile hexDigitCi ++ [';'], w, ?_, ?_, fun z => ?_⟩
      · rw [show ('#' :: x0 :: r2.takeWhile hexDigitCi ++ [';']) ++ w =
            '#' :: x0 :: (r2.takeWhile hexDigitCi ++ ';' :: w) by simp]
        rw [← hr2eq]
      · intro hm
        simp only [List.cons_append, List.mem_cons, List.mem_append,
          List.mem_singleton] at hm
        rcases hm with h | h | h | h
        · exact absurd h.symm (by decide)
        · rcases hx0 with he | he <;> rw [he] at h <;> exact absurd h.symm (by decide)
        · have := hallhex '&' h; exact absurd this (by decide)
        · exact absurd h (by decide)
      · unfold entityAfterAmp
        have hform : ('#' :: x0 :: r2.takeWhile hexDigitCi ++ [';']) ++ z =
            '#' :: (x0 :: r2.takeWhile hexDigitCi ++ ';' :: z) := by simp
        rw [hform]
        have hnum2 : numEntityAfterHash (x0 :: r2.takeWhile hexDigitCi ++ ';' :: z) = true :=
          hex_body_extend hx0 hhs hallhex z
        have htake : decide (('#' :: (x0 :: r2.takeWhile hexDigitCi ++ ';' :: z)).take 1 =
            ['#']) = true := by simp [List.take]
        have hdrop1 : ('#' :: (x0 :: r2.takeWhile hexDigitCi ++ ';' :: z)).drop 1 =
            x0 :: r2.takeWhile hexDigitCi ++ ';' :: z := rfl
        rw [hdrop1, hnum2, htake]
        simp
    · rw [if_neg hx] at hnum
      rw [Bool.and_eq_true, decide_eq_true_eq, decide_eq_true_eq] at hnum
      obtain ⟨hds, hsemi⟩ := hnum
      have hdec : r.takeWhile asciiDigit ++ r.dropWhile asciiDigit = r :=
        List.takeWhile_append_dropWhile asciiDigit r
      have hdw : r.drop (r.takeWhile asciiDigit).length = r.dropWhile asciiDigit := by
        nth_rewrite 2 [← hdec]
        exact List.drop_left _ _
      rw [hdw] at hsemi
      rcases hdwc : r.dropWhile asciiDigit with _ | ⟨s0, w⟩
      · rw [hdwc] at hsemi; simp [List.take] at hsemi
      rw [hdwc] at hsemi
      have hs0 : s0 = ';' := by simpa [List.take] using hsemi
      subst hs0
      have hreq : r = r.takeWhile asciiDigit ++ ';' :: w := by
        conv_lhs => rw [← hdec]
        rw [hdwc]
      have halldig : ∀ c ∈ r.takeWhile asciiDigit, asciiDigit c = true :=
        fun c hc => List.mem_takeWhile_imp hc
      refine ⟨'#' :: r.takeWhile asciiDigit ++ [';'], w, ?_, ?_, fun z => ?_⟩
      · rw [show ('#' :: r.takeWhile asciiDigit ++ [';']) ++ w =
            '#' :: (r.takeWhile asciiDigit ++ ';' :: w) by simp]
        rw [← hreq]
      · intro hm
        simp only [List.cons_append, List.mem_cons, List.mem_append,
          List.mem_singleton] at hm
        rcases hm with h | h | h
        · exact absurd h.symm (by decide)
        · have := halldig '&' h; exact absurd this (by decide)
        · exact absurd h (by decide)
      · unfold entityAfterAmp
        have hform : ('#' :: r.takeWhile asciiDigit ++ [';']) ++ z =
            '#' :: (r.takeWhile asciiDigit ++ ';' :: z) := by simp
        rw [hform]
        have hnum2 : numEntityAfterHash (r.takeWhile asciiDigit ++ ';' :: z) = true :=
          decimal_body_extend hds halldig z
        have htake : decide (('#' :: (r.takeWhile asciiDigit ++ ';' :: z)).take 1 =
            ['#']) = true := by simp [List.take]
        have hdrop1 : ('#' :: (r.takeWhile asciiDigit ++ ';' :: z)).drop 1 =
            r.takeWhile asciiDigit ++ ';' :: z := rfl
        rw [hdrop1, hnum2, htake]
        simp

theorem entityAfterAmp_escAmp {rest : List Char} (h : entityAfterAmp rest = true) :
    entityAfterAmp (escapeAmpForReportlab rest) = true := by
  obtain ⟨pre, suf, hsplit, hpre, hall⟩ := entity_extend h
  rw [hsplit, escAmp_noAmp_append hpre]
  exact hall _

theorem escAmp_idem (s : List Char) :
    escapeAmpForReportlab (escapeAmpForReportlab s) = escapeAmpForReportlab s := by
  induction s with
  | nil => rfl
  | cons c rest ih =>
    by_cases hc : c = '&'
    · subst hc
      by_cases he : entityAfterAmp rest = true
      · rw [escAmp_cons_amp_entity he,
          escAmp_cons_amp_entity (entityAfterAmp_escAmp he), ih]
      · have hb : entityAfterAmp rest = false := by
          revert he; cases entityAfterAmp rest <;> simp
        rw [escAmp_cons_amp_plain hb]
        have h2 : entityAfterAmp ('a' :: 'm' :: 'p' :: ';' :: escapeAmpForReportlab rest) = true := by
          unfold entityAfterAmp
          have h3 : ciStarts (cl "amp;")
              ('a' :: 'm' :: 'p' :: ';' :: escapeAmpForReportlab rest) = true := rfl
          rw [h3]
          rfl
        rw [escAmp_cons_amp_entity h2,
          escAmp_cons_ne (by decide), escAmp_cons_ne (by decide),
          escAmp_cons_ne (by decide), escAmp_cons_ne (by decide), ih]
    · rw [escAmp_cons_ne hc, escAmp_cons_ne hc, ih]

/-! ## The bullet-run grouping of the plain-text rendering loop. -/

theorem textLoop_nil (inRun : Bool) : textLoop inRun [] = [] := rfl

theorem textLoop_cons_bullet_false {b : Blk} (hb : isBulletBlk b = true)
    (rest : List Blk) :
    textLoop false (b :: rest) =
      Flowable.spacer 1 4 :: txtBulletFlow b :: textLoop true rest := by
  simp [textLoop, hb]

theorem textLoop_cons_bullet_true {b : Blk} (hb : isBulletBlk b = true)
    (rest : List Blk) :
    textLoop true (b :: rest) = txtBulletFlow b :: textLoop true rest := by
  simp [textLoop, hb]

theorem textLoop_cons_nonbullet_false {b : Blk} (hb : isBulletBlk b = false)
    (rest : List Blk) :
    textLoop false (b :: rest) = blockToFlowables b ++ textLoop false rest := by
  simp [textLoop, hb]

theorem textLoop_cons_nonbullet_true {b : Blk} (hb : isBulletBlk b = false)
    (rest : List Blk) :
    textLoop true (b :: rest) =
      (if b.1 = "job_title" then bulletDivider else []) ++
        blockToFlowables b ++ textLoop false rest := by
  simp [textLoop, hb]

theorem textLoop_append (l : List Blk) : ∀ rest : List Blk,
    (l.getLast?.all (fun b => !isBulletBlk b) = true →
      textLoop false (l ++ rest) = textLoop false l ++ textLoop false rest) ∧
    (l ≠ [] → l.getLast?.all (fun b => !isBulletBlk b) = true →
      textLoop true (l ++ rest) = textLoop true l ++ textLoop false rest) := by
  induction l with
  | nil =>
    intro rest
    exact ⟨fun _ => rfl, fun h _ => absurd rfl h⟩
  | cons x xs ih =>
    intro rest
    rcases xs with _ | ⟨y, ys⟩
    · constructor
      · intro hlast
        have hx : isBulletBlk x = false := by
          have h1 : (fun b => !isBulletBlk b) x = true := hlast
          simpa using h1
        show textLoop false (x :: rest) = textLoop false [x] ++ textLoop false rest
        rw [textLoop_cons_nonbullet_false hx, textLoop_cons_nonbullet_false hx,
          textLoop_nil]
        simp
      · intro _ hlast
        have hx : isBulletBlk x = false := by
          have h1 : (fun b => !isBulletBlk b) x = true := hlast
          simpa using h1
        show textLoop true (x :: rest) = textLoop true [x] ++ textLoop false rest
        rw [textLoop_cons_nonbullet_true hx, textLoop_cons_nonbullet_true hx,
          textLoop_nil]
        simp [List.append_assoc]
    · have hlast_eq : (x :: y :: ys).getLast? = (y :: ys).getLast? :=
        List.getLast?_cons_cons
      constructor
      · intro hlast
        rw [hlast_eq] at hlast
        by_cases hx : isBulletBlk x = true
        · have h2 := (ih rest).2 (by simp) hlast
          show textLoop false (x :: ((y :: ys) ++ rest)) = _
          rw [textLoop_cons_bullet_false hx, textLoop_cons_bullet_false hx, h2]
          simp [List.cons_append]
        · have hxf : isBulletBlk x = false := by
            revert hx; cases isBulletBlk x <;> simp
          have h1 := (ih rest).1 hlast
          show textLoop false (x :: ((y :: ys) ++ rest)) = _
          rw [textLoop_cons_nonbullet_false hxf, textLoop_cons_nonbullet_false hxf,
            h1, List.append_assoc]
      · intro _ hlast
        rw [hlast_eq] at hlast
        by_cases hx : isBulletBlk x = true
        · have h2 := (ih rest).2 (by simp) hlast
          show textLoop true (x :: ((y :: ys) ++ rest)) = _
          rw [textLoop_cons_bullet_true hx, textLoop_cons_bullet_true hx, h2]
          simp [List.cons_append]
        · have hxf : isBulletBlk x = false := by
            revert hx; cases isBulletBlk x <;> simp
          have h1 := (ih rest).1 hlast
          show textLoop true (x :: ((y :: ys) ++ rest)) = _
          rw [textLoop_cons_nonbullet_true hxf, textLoop_cons_nonbullet_true hxf, h1]
          simp [List.append_assoc]

theorem textLoop_true_bullets (run' : List Blk) : ∀ post : List Blk,
    (∀ b ∈ run', isBulletBlk b = true) →
    post.head?.all (fun b => !isBulletBlk b) = true →
    textLoop true (run' ++ post) =
      run'.map txtBulletFlow ++ dividerFor post ++ textLoop false post := by
  induction run' with
  | nil =>
    intro post _ hpost
    rcases post with _ | ⟨nb, post'⟩
    · rfl
    · have hnb : isBulletBlk nb = false := by
        have h1 : (fun b => !isBulletBlk b) nb = true := hpost
        simpa using h1
      show textLoop true (nb :: post') = _
      rw [textLoop_cons_nonbullet_true hnb, textLoop_cons_nonbullet_false hnb]
      simp [dividerFor, List.append_assoc]
  | cons r run'' ih =>
    intro post hall hpost
    have hr : isBulletBlk r = true := hall r (List.mem_cons_self r run'')
    have ih' := ih post (fun b hb => hall b (List.mem_cons_of_mem r hb)) hpost
    show textLoop true (r :: (run'' ++ post)) = _
    rw [textLoop_cons_bullet_true hr, ih']
    simp [List.cons_append]

/-! ## Facts used for the job-title heuristic claims. -/

theorem isBulletLine_of_norm_head {l : List Char} {c : Char} {rest : List Char}
    (hn : normalizeBulletLine l = c :: rest) (hc : c ∈ bulletPfxChars) :
    isBulletLine l = true := by
  unfold isBulletLine
  rw [hn]
  simpa using hc

theorem mem_stripBulletPfx_sub {c : Char} {l : List Char}
    (h : c ∈ stripBulletPfx l) : c ∈ normalizeBulletLine l := by
  unfold stripBulletPfx at h
  rcases hn : normalizeBulletLine l with _ | ⟨d, rest⟩ <;> rw [hn] at h
  · simp at h
  · have h2 : c ∈ (if d ∈ bulletPfxChars then pyStripL rest else d :: rest) := h
    by_cases hd : d ∈ bulletPfxChars
    · rw [if_pos hd] at h2
      exact List.mem_cons_of_mem d (mem_of_mem_dropWhile h2)
    · rw [if_neg hd] at h2
      exact h2

/-! ## The claims. -/

/-- C1 counterexample: on the worked example input the plain-text block
parser does not emit the claimed Title, ContactLine, SectionHeading,
JobTitle, Bullet, Bullet sequence, because the EXPERIENCE paragraph is
handled by the section-header-first rule before bullet scanning. -/
theorem c1_counterexample :
    parseBlocks c1Input ≠
      [("title", cl "Jane Doe"), ("contact", cl "jane@x.com | 555-1234"),
       ("section", cl "EXPERIENCE"),
       ("job_title", cl "Senior Engineer | Acme | 2020-2023"),
       ("bullet", cl "Built a thing"), ("bullet", cl "Shipped another thing")] := by
  decide

/-- C1 (amended): on the worked example input the plain-text block
parser emits Title, ContactLine, SectionHeading, and then one body
Paragraph per remaining line of the EXPERIENCE paragraph, in input
order; no JobTitle or Bullet block is produced because the rule for a
paragraph whose first line is a section header takes precedence over
the bullet scan. -/
theorem c1_amended_blocks :
    parseBlocks c1Input =
      [("title", cl "Jane Doe"), ("contact", cl "jane@x.com | 555-1234"),
       ("section", cl "EXPERIENCE"),
       ("body", cl "Senior Engineer | Acme | 2020-2023"),
       ("body", cl "- Built a thing"), ("body", cl "- Shipped another thing")] := by
  decide

/-- C2: on an input whose ul open tag is never closed the depth-tracking
scanner does not terminate gracefully: when neither another open tag nor
a close tag occurs after the opening, the Python code calls end() on a
None match and raises, modelled here by the none result, which also
propagates through the HTML entry point. -/
theorem c2_unterminated_ul_raises :
    findUlRanges (cl "<ul><li>x</li>") = none ∧
    htmlToPdfBytes (cl "<ul><li>x</li>") = none := by
  decide

/-- C3: the empty string renders through both entry points without an
error branch and yields a non-empty byte buffer: both parsers produce
the empty block list and the modelled document builder emits a minimal
non-empty blank document. -/
theorem c3_empty_input_renders :
    parseBlocks (cl "") = [] ∧
    textToPdfBytes (cl "") = docBuild [] ∧
    parseSimpleHtmlToBlocks (cl "") = some [] ∧
    htmlToPdfBytes (cl "") = some (docBuild []) ∧
    docBuild [] ≠ [] := by
  decide

/-- C4 counterexample: a body block whose content carries two stacked
markers still emits text that begins with a bullet glyph, because the
builder strips only one leading marker. -/
theorem c4_counterexample :
    blockToFlowables ("body", cl "--x") = [Flowable.para "Body" 0 (cl "-x")] ∧
    startsWithBulletGlyph (cl "-x") = true := by
  decide

/-- C4 (amended): for every body content c the Flowable Builder emits
exactly the paragraph text stripBulletPfx (boldToXml c), which removes
one leading bullet marker; whenever that once-stripped text is not
itself again a bullet line, it does not begin with any bullet glyph. -/
theorem c4_body_strip_amended (c : List Char) :
    blockToFlowables ("body", c) =
      [Flowable.para "Body" 0 (stripBulletPfx (boldToXml c))] ∧
    (isBulletLine (stripBulletPfx (boldToXml c)) = false →
      startsWithBulletGlyph (stripBulletPfx (boldToXml c)) = false) :=
  ⟨rfl, fun h => stripBulletPfx_no_glyph (boldToXml c) h⟩

/-- Witness for C4 at a concrete single-marker content. -/
theorem c4_body_strip_amended_witness :
    startsWithBulletGlyph (stripBulletPfx (boldToXml (cl "- hello"))) = false :=
  (c4_body_strip_amended (cl "- hello")).2 (by decide)

/-- C5 counterexample: bullet stripping is not idempotent on a line with
two stacked markers: one application leaves a dash the next one takes. -/
theorem c5_counterexample :
    stripBulletPfx (stripBulletPfx (cl "--x")) ≠ stripBulletPfx (cl "--x") := by
  decide

/-- C5 (amended): stripping is idempotent on every line whose
once-stripped form is not itself a bullet line; a second application can
only change the text by removing a further marker. -/
theorem c5_strip_idem_amended (l : List Char)
    (h : isBulletLine (stripBulletPfx l) = false) :
    stripBulletPfx (stripBulletPfx l) = stripBulletPfx l := by
  have hn := normalize_stripBulletPfx l
  rcases ht : stripBulletPfx l with _ | ⟨c, rest⟩
  · unfold stripBulletPfx
    rw [show normalizeBulletLine ([] : List Char) = [] from by decide]
  · rw [ht] at hn h
    unfold isBulletLine at h
    rw [hn] at h
    have hc : ¬ c ∈ bulletPfxChars := by simpa using h
    unfold stripBulletPfx
    rw [hn]
    simp [hc]

/-- Witness for C5 at a concrete single-marker line. -/
theorem c5_strip_idem_amended_witness :
    stripBulletPfx (stripBulletPfx (cl "- hi")) = stripBulletPfx (cl "- hi") :=
  c5_strip_idem_amended (cl "- hi") (by decide)

/-- C6: ampersand escaping is idempotent on every string; the worked
already-escaped example is returned unchanged, and a bare ampersand is
rewritten to the amp entity. -/
theorem c6_escape_amp_idempotent :
    (∀ s : List Char,
      escapeAmpForReportlab (escapeAmpForReportlab s) = escapeAmpForReportlab s) ∧
    escapeAmpForReportlab (cl "A &amp; B") = cl "A &amp; B" ∧
    escapeAmpForReportlab (cl "A & B") = cl "A &amp; B" :=
  ⟨escAmp_idem, by decide, by decide⟩

/-- C7: in the plain-text rendering loop a maximal contiguous bullet run
is rendered as exactly one leading spacer followed by the bullet
paragraphs of the run, and the spacer-rule-spacer divider follows the
run exactly when the block after the run is a job title. -/
theorem c7_bullet_run_grouping (pre run post : List Blk)
    (h1 : run ≠ [])
    (h2 : ∀ b ∈ run, isBulletBlk b = true)
    (h3 : pre.getLast?.all (fun b => !isBulletBlk b) = true)
    (h4 : post.head?.all (fun b => !isBulletBlk b) = true) :
    textGo (pre ++ run ++ post) =
      textGo pre ++ (Flowable.spacer 1 4 :: run.map txtBulletFlow) ++
        dividerFor post ++ textGo post := by
  rcases run with _ | ⟨r, run'⟩
  · exact absurd rfl h1
  have hr : isBulletBlk r = true := h2 r (List.mem_cons_self r run')
  have hrun := textLoop_true_bullets run' post
    (fun b hb => h2 b (List.mem_cons_of_mem r hb)) h4
  show textLoop false (pre ++ (r :: run') ++ post) = _
  rw [List.append_assoc]
  rw [(textLoop_append pre ((r :: run') ++ post)).1 h3]
  rw [show (r :: run') ++ post = r :: (run' ++ post) from rfl]
  rw [textLoop_cons_bullet_false hr, hrun]
  show _ = textLoop false pre ++
      (Flowable.spacer 1 4 :: List.map txtBulletFlow (r :: run')) ++
      dividerFor post ++ textLoop false post
  simp [List.map_cons, List.cons_append, List.append_assoc]

/-- Witness for C7 on a concrete title block, one bullet, and a
following job title. -/
theorem c7_bullet_run_grouping_witness :
    textGo ([(("title" : String), cl "Jane")] ++ [(("bullet" : String), cl "- x")] ++
        [(("job_title" : String), cl "J | K | L")]) =
      textGo [(("title" : String), cl "Jane")] ++
        (Flowable.spacer 1 4 ::
          List.map txtBulletFlow [(("bullet" : String), cl "- x")]) ++
        dividerFor [(("job_title" : String), cl "J | K | L")] ++
        textGo [(("job_title" : String), cl "J | K | L")] :=
  c7_bullet_run_grouping _ _ _ (by decide) (by decide) (by decide) (by decide)

/-- C8: on the worked HTML example the parser emits the centred
paragraph, the heading and the two list items in document order, and the
flowable loop renders the first paragraph in the centred title style,
the heading as bold text plus rule plus spacer, and the two items in
bullet style with the list marker. -/
theorem c8_html_pipeline_order :
    parseSimpleHtmlToBlocks c8Input =
      some [HtmlBlock.pblk (cl "Jane Doe") (some (cl "center")),
            HtmlBlock.h2blk (cl "Skills") none,
            HtmlBlock.ulblk [cl "Go", cl "Rust"]] ∧
    htmlFlowables c8Input =
      some [Flowable.para "Title-center" 1 (cl "Jane Doe"),
            Flowable.para "Section" 0 (cl "<b>Skills</b>"),
            Flowable.hrule "#333333", Flowable.spacer 1 4,
            Flowable.para "BulletText" 0 (cl "-   Go"),
            Flowable.para "BulletText" 0 (cl "-   Rust")] := by
  constructor
  · decide
  · decide

/-- C9: a line whose normalized form starts with a dash or an asterisk
is never a job or project title; in particular every line that starts
with a bold marker is classified as a bullet line and rejected as a
title. -/
theorem c9_bullet_marker_never_title :
    (∀ (l rest : List Char) (c : Char), normalizeBulletLine l = c :: rest →
        c = '-' ∨ c = '*' → looksLikeJobOrProjectTitle l = false) ∧
    (∀ l t : List Char, pyStrip l = '*' :: '*' :: t →
        isBulletLine l = true ∧ looksLikeJobOrProjectTitle l = false) := by
  constructor
  · intro l rest c hn hc
    have hb : isBulletLine l = true := by
      apply isBulletLine_of_norm_head hn
      rcases hc with h | h <;> subst h <;> decide
    simp [looksLikeJobOrProjectTitle, hb]
  · intro l t hstrip
    have hns : pyWs '*' = false := by decide
    have hmap : (pyStrip l).map normMap = '*' :: '*' :: t.map normMap := by
      rw [hstrip, List.map_cons, List.map_cons,
        show normMap '*' = '*' from by decide]
    have hnorm : normalizeBulletLine l = '*' :: pyStripR ('*' :: t.map normMap) := by
      unfold normalizeBulletLine
      rw [hmap]
      exact pyStrip_cons_nonws hns _
    have hb : isBulletLine l = true := isBulletLine_of_norm_head hnorm (by decide)
    exact ⟨hb, by simp [looksLikeJobOrProjectTitle, hb]⟩

/-- Witness for C9 at a dash-led line and at the bold-marker line the
tailoring prompt prescribes for job titles. -/
theorem c9_bullet_marker_never_title_witness :
    looksLikeJobOrProjectTitle (cl "- x") = false ∧
    isBulletLine (cl "**Senior Engineer** | Acme | 2020") = true ∧
    looksLikeJobOrProjectTitle (cl "**Senior Engineer** | Acme | 2020") = false :=
  ⟨c9_bullet_marker_never_title.1 (cl "- x") [' ', 'x'] '-' (by decide) (Or.inl rfl),
   (c9_bullet_marker_never_title.2 (cl "**Senior Engineer** | Acme | 2020")
     (cl "Senior Engineer** | Acme | 2020") (by decide)).1,
   (c9_bullet_marker_never_title.2 (cl "**Senior Engineer** | Acme | 2020")
     (cl "Senior Engineer** | Acme | 2020") (by decide)).2⟩

/-- C10: normalization rewrites every dash and bullet variant anywhere
in the line, not only at its start: every character of the stripped
output that lies in the dash or bullet set is the canonical hyphen, and
the worked interior en-dash date range comes out with a plain hyphen. -/
theorem c10_normalize_everywhere :
    (∀ (l : List Char) (c : Char), c ∈ stripBulletPfx l →
        c ∈ uDashes ∨ c ∈ uBullets → c = '-') ∧
    stripBulletPfx (cl "2020–2023") = cl "2020-2023" := by
  constructor
  · intro l c hmem hset
    have hfix : normMap c = c := mem_normalize_fixed (mem_stripBulletPfx_sub hmem)
    by_cases hnb : c = ' '
    · exfalso
      subst hnb
      revert hset
      decide
    · unfold normMap at hfix
      rw [if_neg hnb, if_pos hset] at hfix
      exact hfix.symm
  · decide

/-- Witness for C10 at an interior en dash. -/
theorem c10_normalize_everywhere_witness :
    ('-' ∈ stripBulletPfx (cl "a–b") ∧ ('-' ∈ uDashes ∨ '-' ∈ uBullets)) ∧
    ('-' : Char) = '-' :=
  ⟨⟨by decide, by decide⟩,
   c10_normalize_everywhere.1 (cl "a–b") '-' (by decide) (by decide)⟩
